import Mathlib

/-!
Verification of the bitwise-XOR gadget and the Keccak/SHA-3 sponge of this
repository, shallowly embedded in Lean.  Field elements are modelled as
natural numbers below the field order `P`; machine integers of the source
(JS `number` / `bigint`) are modelled as `Nat` (and `Int` where the source
value can go negative); a function that can throw is modelled as returning
`Option`.
-/

set_option maxRecDepth 10000

namespace O1js

/-- Modelled from the spec: the prime order of the field (`field.js` is not
under `src/`).  The spec fixes the field bit width at 255; we use the Pasta
base-field prime of this code base. -/
def P : Nat := 28948022309329048855892746252171976963363056481941560715954676764349967630337

/-- Modelled from the spec: `Field.sizeInBits()`, the compile-time field bit
width (255 in this field, spec section 6). -/
def sizeInBits : Nat := 255

/-- Modelled from the spec: field addition (mod `P`). -/
def Field.add (a b : Nat) : Nat := (a + b) % P

/-- Modelled from the spec: field multiplication (mod `P`). -/
def Field.mul (a b : Nat) : Nat := (a * b) % P

/-- Modelled from the spec: field subtraction (mod `P`). -/
def Field.sub (a b : Nat) : Nat := (a + (P - b % P)) % P

/-- Modelled from the spec: field division, i.e. multiplication by the
inverse computed via Fermat's little theorem. -/
def Field.div (a b : Nat) : Nat := Field.mul a (b ^ (P - 2) % P)

/-- Modelled from the spec: `Field.toBits()`, the LSB-first bit decomposition
of a field element to the fixed field bit width. -/
def Field.toBits (f : Nat) : List Bool := (List.range sizeInBits).map (Nat.testBit f)

/-- Modelled from the spec: `Field.fromBits`, repacking an LSB-first bit list
into a field element. -/
def Field.fromBits (bits : List Bool) : Nat :=
  bits.foldr (fun b acc => (if b then 1 else 0) + 2 * acc) 0

/-! ## The recursive XOR gadget (`xor.ts`, `src/unnamed/part_000`) -/

namespace XorGadget

/-- `fieldBitsToFieldLE(f, start, stop)`: repack the bit slice
`f.toBits().slice(start, stop)` into a field element (the `stop = -1` case
is never used by `xorRec` and is omitted; the guards of the source are
checked by the caller `xorRec` below). -/
def fieldBitsToFieldLE (f : Nat) (start stop : Nat) : Nat :=
  Field.fromBits (((Field.toBits f).drop start).take (stop - start))

/-- `asProverNextVar(current, var0..var3, len_xor)`: the witnessed remainder
`(current - var0 - var1*2^len - var2*2^2len - var3*2^3len) / 2^4len`,
computed in field arithmetic. -/
def asProverNextVar (current var0 var1 var2 var3 : Nat) (len_xor : Nat) : Nat :=
  let twoPowLen : Nat := 2 ^ len_xor % P
  let twoPow2Len := Field.mul twoPowLen twoPowLen
  let twoPow3Len := Field.mul twoPow2Len twoPowLen
  let twoPow4Len := Field.mul twoPow3Len twoPowLen
  Field.div
    (Field.sub
      (Field.sub
        (Field.sub (Field.sub current var0) (Field.mul var1 twoPowLen))
        (Field.mul var2 twoPow2Len))
      (Field.mul var3 twoPow3Len))
    twoPow4Len

/-- The `padLength` computed by `xor` (lines 70-74 of the source): initially
`len_xor`, overwritten with `length + 4*len_xor - length % (4*len_xor)` when
`length` is not a multiple of `4*len_xor`. -/
def padLengthOf (length len_xor : Nat) : Nat :=
  if length % (4 * len_xor) ≠ 0 then length + 4 * len_xor - length % (4 * len_xor)
  else len_xor

/-- `xorRec(input1, input2, outputXor, padLength, len_xor)`.  The source
recurses without a decreasing measure, so the embedding takes explicit fuel
and returns `none` when the fuel runs out or a guard of the source throws.
`padLength` is an `Int` because the source decrements a JS number below
zero.  Gate emission (`Gates.xor`, `Gates.zeroCheck`) has no value-level
effect; the terminal `assertEquals` checks are modelled as `Option` guards. -/
def xorRec (fuel : Nat) (input1 input2 outputXor : Nat) (padLength : Int)
    (len_xor : Nat) : Option Unit :=
  match fuel with
  | 0 => none
  | Nat.succ fuel =>
    if padLength = 0 then
      -- Gates.zeroCheck(input1, input2, outputXor), then zero.assertEquals on all three
      if input1 = 0 ∧ input2 = 0 ∧ outputXor = 0 then some () else none
    else
      -- nibble offsets
      let first := len_xor
      let second := first + len_xor
      let third := second + len_xor
      let fourth := third + len_xor
      -- `ofBits` throws when stop ≤ start or stop exceeds the bit length
      if 0 < len_xor ∧ fourth ≤ sizeInBits then
        let in1_0 := fieldBitsToFieldLE input1 0 first
        let in1_1 := fieldBitsToFieldLE input1 first second
        let in1_2 := fieldBitsToFieldLE input1 second third
        let in1_3 := fieldBitsToFieldLE input1 third fourth
        let in2_0 := fieldBitsToFieldLE input2 0 first
        let in2_1 := fieldBitsToFieldLE input2 first second
        let in2_2 := fieldBitsToFieldLE input2 second third
        let in2_3 := fieldBitsToFieldLE input2 third fourth
        let out_0 := fieldBitsToFieldLE outputXor 0 first
        let out_1 := fieldBitsToFieldLE outputXor first second
        let out_2 := fieldBitsToFieldLE outputXor second third
        let out_3 := fieldBitsToFieldLE outputXor third fourth
        -- Gates.xor(input1, input2, outputXor, in1_0..in1_3, in2_0..in2_3, out_0..out_3)
        let next_in1 := asProverNextVar input1 in1_0 in1_1 in1_2 in1_3 len_xor
        let next_in2 := asProverNextVar input2 in2_0 in2_1 in2_2 in2_3 len_xor
        let next_out := asProverNextVar outputXor out_0 out_1 out_2 out_3 len_xor
        let next_length := padLength - 4 * (len_xor : Int)
        xorRec fuel next_in1 next_in2 next_out next_length len_xor
      else none

/-- `xor(a, b, length, len_xor)` (default `len_xor = 4`): asserts the length
preconditions, performs the prover-side `fitsInBits` checks, witnesses the
output as the bitwise XOR of the two bit decompositions, computes
`padLength` and runs `xorRec`.  Fuel-based for the same reason as `xorRec`. -/
def xor (fuel : Nat) (a b : Nat) (length : Nat) (len_xor : Nat) : Option Nat :=
  if length > 0 ∧ len_xor > 0 then
    if length ≤ sizeInBits then
      -- fitsInBits(a, length), fitsInBits(b, length) in the prover blocks
      if a < 2 ^ length ∧ b < 2 ^ length then
        let outputXor := Field.fromBits
          (List.zipWith (fun b1 b2 => !(b1 == b2)) (Field.toBits a) (Field.toBits b))
        let padLength := padLengthOf length len_xor
        (xorRec fuel a b outputXor (padLength : Int) len_xor).map fun _ => outputXor
      else none
    else none
  else none

end XorGadget

/-! ## The Keccak/SHA-3 implementation (`keccak.ts`, part of
`src/src/lib/mina/actions/offchain-contract.unit-test.ts`) -/

namespace Keccak

def KECCAK_DIM : Nat := 5

def KECCAK_ELL : Nat := 6

/-- Width of a lane in bits (64). -/
def KECCAK_WORD : Nat := 2 ^ KECCAK_ELL

/-- Number of bytes in a word (8). -/
def BYTES_PER_WORD : Nat := KECCAK_WORD / 8

/-- Length of the state in words (25). -/
def KECCAK_STATE_LENGTH_WORDS : Nat := KECCAK_DIM ^ 2

/-- Length of the state in bits (1600). -/
def KECCAK_STATE_LENGTH : Nat := KECCAK_STATE_LENGTH_WORDS * KECCAK_WORD

/-- Length of the state in bytes (200). -/
def KECCAK_STATE_LENGTH_BYTES : Nat := KECCAK_STATE_LENGTH / 8

/-- The 5x5 table of rotation offsets. -/
def ROT_TABLE : List (List Nat) :=
  [[0, 36, 3, 41, 18],
   [1, 44, 10, 45, 2],
   [62, 6, 43, 15, 61],
   [28, 55, 25, 21, 56],
   [27, 20, 39, 8, 14]]

/-- The 24 Keccak round constants. -/
def ROUND_CONSTANTS : List Nat :=
  [0x0000000000000001, 0x0000000000008082, 0x800000000000808a, 0x8000000080008000,
   0x000000000000808b, 0x0000000080000001, 0x8000000080008081, 0x8000000000008009,
   0x000000000000008a, 0x0000000000000088, 0x0000000080008009, 0x000000008000000a,
   0x000000008000808b, 0x800000000000008b, 0x8000000000008089, 0x8000000000008003,
   0x8000000000008002, 0x8000000000000080, 0x000000000000800a, 0x800000008000000a,
   0x8000000080008081, 0x8000000000008080, 0x0000000080000001, 0x8000000080008008]

namespace Gadgets

/-- `Gadgets.xor(a, b, length)`: the dispatching `gadgets.js` is not under
`src/`, but the spec states that all Keccak XORs use the section 4.1 gadget
with the default nibble width (sections 2 and 4.2), and that gadget's source
is `src/unnamed/part_000`.  So this dispatches to `XorGadget.xor` with
`len_xor = 4`, threading the fuel of that (possibly non-terminating)
recursion. -/
def xor (fuel : Nat) (a b : Nat) (length : Nat) : Option Nat :=
  XorGadget.xor fuel a b length 4

/-- Modelled from the spec: `Gadgets.rotate(word, bits, 'left')`, left
rotation of a 64-bit word. -/
def rotate (word : Nat) (bits : Nat) : Nat :=
  ((word <<< bits) % 2 ^ 64) ||| (word >>> (64 - bits))

/-- Modelled from the spec: `Gadgets.and(a, b, length)`, bitwise AND of
`length`-bit words. -/
def and (a b : Nat) (_length : Nat) : Nat := Nat.land a b

/-- Modelled from the spec: `Gadgets.not(a, length, checked)`, complement of
the low `length` bits. -/
def not (a : Nat) (length : Nat) (_checked : Bool) : Nat :=
  Nat.xor (a % 2 ^ length) (2 ^ length - 1)

end Gadgets

/-- The number of extra bytes needed to pad a message of the given length. -/
def bytesToPad (rate length : Nat) : Nat := rate - length % rate

/-- `pad(message, rate, nist)`: append the padding rule `0x06 ..0.. 0x80`
(NIST) or `0x01 ..0.. 0x80` (pre-NIST) up to a multiple of `rate` bytes;
the `0x80` is added onto the last padding byte. -/
def pad (message : List Nat) (rate : Nat) (nist : Bool) : List Nat :=
  let extraBytes := bytesToPad rate message.length
  let first : Nat := if nist then 0x06 else 0x01
  let last : Nat := 0x80
  let padv := (List.replicate extraBytes (0 : Nat)).set 0 first
  let padv := padv.set (extraBytes - 1) (Field.add (padv.getD (extraBytes - 1) 0) last)
  message ++ padv

/-- A Keccak state: a 5x5 matrix of words. -/
abbrev KState := List (List Nat)

/-- Write `v` at position `(i, j)` of a state (the JS `s[i][j] = v`: row `i`
is updated in place). -/
def updateAt (s : KState) (i j : Nat) (v : Nat) : KState :=
  List.modify (fun row => row.set j v) i s

namespace State

/-- `State.zeros()`: the all-zero 5x5 state. -/
def zeros : KState :=
  List.replicate KECCAK_DIM (List.replicate KECCAK_DIM (0 : Nat))

/-- `State.toWords(state)`: flatten the state to 25 words, writing
`words[5*j + i] = state[i][j]`.  The source's double loop (outer `j`, inner
`i`) writes the positions `5*j + i` in ascending order `0..24`, so the word
list is exactly the concatenation over `j` of the columns
`state[0][j], ..., state[4][j]`. -/
def toWords (state : KState) : List Nat :=
  ((List.range KECCAK_DIM).map fun j =>
    (List.range KECCAK_DIM).map fun i => (state.getD i []).getD j 0).flatten

/-- `State.fromWords(words)`: compose 25 words into a state, reading
`state[i][j] = words[5*j + i]`. -/
def fromWords (words : List Nat) : KState :=
  (List.range KECCAK_DIM).foldl
    (fun state j =>
      (List.range KECCAK_DIM).foldl
        (fun state i => updateAt state i j (words.getD (KECCAK_DIM * j + i) 0))
        state)
    zeros

/-- `State.xor(a, b)`: assert that the outer length and the first row's
length of each input are 5 (the only dimension checks the source makes),
then XOR the two states entrywise with 64-bit `Gadgets.xor`.  An access to a
missing entry of `b` (a JS `undefined`) is a throw, hence `none`; the
entrywise gadget calls thread the fuel and may themselves throw or run
forever. -/
def xor (fuel : Nat) (a b : KState) : Option KState :=
  if (a.length = KECCAK_DIM ∧ (a.headD []).length = KECCAK_DIM) ∧
      (b.length = KECCAK_DIM ∧ (b.headD []).length = KECCAK_DIM) then
    (a.mapIdx fun i row => row.mapIdx fun j value =>
      ((b[i]?).bind fun brow => brow[j]?).bind fun w => Gadgets.xor fuel value w 64).mapM
      fun row => row.mapM id
  else none

end State

/-- `theta`: `C[i]` is the XOR of row `i` (a JS `reduce` without initial
value, which throws on an empty row); `D[i] = C[i-1] xor rot(C[i+1], 1)`;
`E[i][j] = A[i][j] xor D[i]`.  Every XOR is a fuel-threaded gadget call. -/
def theta (fuel : Nat) (state : KState) : Option KState := do
  let stateA := state
  let stateC ← stateA.mapM fun row =>
    match row with
    | [] => none
    | h :: t => t.foldlM (fun acc value => Gadgets.xor fuel acc value KECCAK_WORD) h
  let stateD ← (List.range KECCAK_DIM).mapM fun x =>
    Gadgets.xor fuel (stateC.getD ((x + KECCAK_DIM - 1) % KECCAK_DIM) 0)
      (Gadgets.rotate (stateC.getD ((x + 1) % KECCAK_DIM) 0) 1) KECCAK_WORD
  (stateA.mapIdx fun index row =>
    row.mapM fun elem => Gadgets.xor fuel elem (stateD.getD index 0) KECCAK_WORD).mapM id

/-- `piRho`: `B[j][(2i+3j) mod 5] = rot(E[i][j], ROT_TABLE[i][j])`, written
into a fresh zero state as in the source's double loop. -/
def piRho (state : KState) : KState :=
  (List.range KECCAK_DIM).foldl
    (fun stateB i =>
      (List.range KECCAK_DIM).foldl
        (fun stateB j =>
          updateAt stateB j ((2 * i + 3 * j) % KECCAK_DIM)
            (Gadgets.rotate ((state.getD i []).getD j 0)
              ((ROT_TABLE.getD i []).getD j 0)))
        stateB)
    State.zeros

/-- `chi`: `F[i][j] = B[i][j] xor ((not B[i+1][j]) and B[i+2][j])`, indices
mod 5, written into a fresh zero state as in the source's double loop; the
XOR of each entry is a fuel-threaded gadget call. -/
def chi (fuel : Nat) (state : KState) : Option KState :=
  (List.range KECCAK_DIM).foldlM
    (fun stateF i =>
      (List.range KECCAK_DIM).foldlM
        (fun stateF j => do
          let v ← Gadgets.xor fuel ((state.getD i []).getD j 0)
            (Gadgets.and
              (Gadgets.not ((state.getD ((i + 1) % KECCAK_DIM) []).getD j 0)
                KECCAK_WORD false)
              ((state.getD ((i + 2) % KECCAK_DIM) []).getD j 0)
              KECCAK_WORD)
            KECCAK_WORD
          pure (updateAt stateF i j v))
        stateF)
    State.zeros

/-- `iota`: XOR the round constant into the word at position `(0, 0)` with a
fuel-threaded gadget call. -/
def iota (fuel : Nat) (state : KState) (rc : Nat) : Option KState :=
  (Gadgets.xor fuel ((state.getD 0 []).getD 0 0) (rc % P) KECCAK_WORD).map fun v =>
    updateAt state 0 0 v

/-- One Keccak round: `iota o chi o piRho o theta`. -/
def round (fuel : Nat) (state : KState) (rc : Nat) : Option KState := do
  let stateA := state
  let stateE ← theta fuel stateA
  let stateB := piRho stateE
  let stateF ← chi fuel stateB
  let stateD ← iota fuel stateF rc
  pure stateD

/-- The Keccak permutation: fold `round` over the round constants. -/
def permutation (fuel : Nat) (state : KState) (rc : List Nat) : Option KState :=
  rc.foldlM (fun acc value => round fuel acc value) state

/-- The `rate`-sized slices the `absorb` loop walks over. -/
def blocksOf (l : List Nat) (size : Nat) : List (List Nat) :=
  (List.range (l.length / size)).map fun i => ((l.drop (size * i)).take size)

/-- `absorb(paddedMessage, capacity, rate, rc)`: check `rate + capacity = 25`
and rate-alignment, then for each `rate`-word block, zero-extend to 25
words, XOR into the running state and permute. -/
def absorb (fuel : Nat) (paddedMessage : List Nat) (capacity rate : Nat)
    (rc : List Nat) : Option KState :=
  if rate + capacity = KECCAK_STATE_LENGTH_WORDS then
    if paddedMessage.length % rate = 0 then
      let zeros := List.replicate capacity (0 : Nat)
      (blocksOf paddedMessage rate).foldlM
        (fun state block =>
          (State.xor fuel state (State.fromWords (block ++ zeros))).bind fun stateXor =>
            permutation fuel stateXor rc)
        State.zeros
    else none
  else none

/-- `squeeze(state, length, rate)`: computes the number of squeezes as
`floor(length / rate) + 1`, asserts it is 1, and returns the first
`length` words of the state. -/
def squeeze (state : KState) (length rate : Nat) : Option (List Nat) :=
  let squeezes := length / rate + 1
  if squeezes = 1 then some ((State.toWords state).take length) else none

/-- `sponge(paddedMessage, length, capacity, rate)`: check rate-alignment,
absorb, then squeeze. -/
def sponge (fuel : Nat) (paddedMessage : List Nat) (length capacity rate : Nat) :
    Option (List Nat) :=
  if paddedMessage.length % rate = 0 then do
    let state ← absorb fuel paddedMessage capacity rate ROUND_CONSTANTS
    squeeze state length rate
  else none

/-- `bytesToWord(wordBytes)`: the little-endian weighted field sum
`sum of wordBytes[idx] * 2^(8*idx)`. -/
def bytesToWord (wordBytes : List Nat) : Nat :=
  (wordBytes.mapIdx fun idx value => Field.mul value ((1 <<< (8 * idx)) % P)).foldl
    Field.add 0

/-- `wordToBytes(word)`: witness the 8 little-endian bytes of the word,
range-check each to 8 bits, and assert the weighted sum recomposes to the
original word. -/
def wordToBytes (word : Nat) : Option (List Nat) :=
  let bytes := (List.range BYTES_PER_WORD).map fun k => (word >>> (8 * k)) &&& 0xff
  if bytes.all fun b => b < 2 ^ 8 then
    if bytesToWord bytes = word then some bytes else none
  else none

/-- `chunk(array, size)`: assert `size` divides the length, then cut the
array into `length / size` groups of `size`. -/
def chunk (array : List Nat) (size : Nat) : Option (List (List Nat)) :=
  if array.length % size = 0 then
    some ((List.range (array.length / size)).map fun i =>
      ((array.drop (size * i)).take size))
  else none

/-- `bytesToWords(bytes)`: chunk into groups of 8 and recompose each group. -/
def bytesToWords (bytes : List Nat) : Option (List Nat) :=
  (chunk bytes BYTES_PER_WORD).map (List.map bytesToWord)

/-- `wordsToBytes(words)`: decompose every word into bytes and concatenate. -/
def wordsToBytes (words : List Nat) : Option (List Nat) :=
  (words.mapM wordToBytes).map List.flatten

/-- `hash(message, length, capacity, nistVersion)`: validate the byte-level
parameters, convert them to words, derive the rate, pad, convert to words,
run the sponge and convert back to bytes. -/
def hash (fuel : Nat) (message : List Nat) (length capacity : Nat)
    (nistVersion : Bool) : Option (List Nat) :=
  if 0 < capacity then
    if capacity < KECCAK_STATE_LENGTH_BYTES then
      if 0 < length then
        if capacity % BYTES_PER_WORD = 0 then
          if length % BYTES_PER_WORD = 0 then
            let capacityW := capacity / BYTES_PER_WORD
            let lengthW := length / BYTES_PER_WORD
            let rate := KECCAK_STATE_LENGTH_WORDS - capacityW
            let paddedBytes := pad message (rate * BYTES_PER_WORD) nistVersion
            do
              let padded ← bytesToWords paddedBytes
              let hashWords ← sponge fuel padded lengthW capacityW rate
              wordsToBytes hashWords
          else none
        else none
      else none
    else none
  else none

/-- `nistSha3(len, message)`: SHA3 with output length `len` bits. -/
def nistSha3 (fuel : Nat) (len : Nat) (message : List Nat) : Option (List Nat) :=
  hash fuel message (len / 8) (len / 4) true

/-- `preNist(len, message)`: pre-NIST Keccak with output length `len` bits. -/
def preNist (fuel : Nat) (len : Nat) (message : List Nat) : Option (List Nat) :=
  hash fuel message (len / 8) (len / 4) false

/-- `ethereum(message)`: the Keccak-256 variant used by Ethereum. -/
def ethereum (fuel : Nat) (message : List Nat) : Option (List Nat) :=
  preNist fuel 256 message

end Keccak

namespace XorGadget

/-- Helper: once `padLength` is at most 4 and nonzero with `len_xor = 4`, the
nibble chain can never hit the `padLength == 0` terminal step: every round
subtracts 16, so the value stays nonzero (it goes negative) forever.  Hence
`xorRec` returns `none` for every amount of fuel. -/
lemma xorRec_stuck (fuel : Nat) : ∀ (p : Int) (a b c : Nat), p ≤ 4 → p ≠ 0 →
    xorRec fuel a b c p 4 = none := by
  induction fuel with
  | zero => intro p a b c _ _; rfl
  | succ n ih =>
    intro p a b c hp hne
    rw [xorRec]
    rw [if_neg hne, if_pos (by norm_num [sizeInBits])]
    exact ih _ _ _ _ (by omega) (by omega)

/-- Helper: at word width 64 — the width of every Keccak lane — the gadget
diverges for all operands: the width preconditions pass, `padLengthOf 64 4`
is 4 (64 % 16 = 0), and the chain is stuck; when the prover-side
`fitsInBits` check fails instead, the call throws.  Either way no value is
ever returned. -/
lemma xor64_diverges (fuel : Nat) (a b : Nat) : xor fuel a b 64 4 = none := by
  rw [xor]
  rw [if_pos (by norm_num), if_pos (by norm_num [sizeInBits])]
  by_cases hf : a < 2 ^ 64 ∧ b < 2 ^ 64
  · rw [if_pos hf]
    have h : ∀ c : Nat, xorRec fuel a b c 4 4 = none := fun c =>
      xorRec_stuck fuel 4 a b c (by omega) (by omega)
    simp only [show ((padLengthOf 64 4 : Nat) : Int) = (4 : Int) from rfl, h,
      Option.map_none']
  · rw [if_neg hf]

end XorGadget

namespace Keccak

/-- Helper: `State.xor` never yields a state.  If a dimension check fails
the assertion throws; otherwise both first rows are non-empty, so the very
first entrywise gadget call is `Gadgets.xor fuel a00 b00 64`, which returns
no value for any fuel (`xor64_diverges`), and the row and state `mapM`
propagate the failure. -/
lemma state_xor_none_aux (fuel : Nat) (a b : KState) : State.xor fuel a b = none := by
  rw [State.xor]
  by_cases hc : (a.length = KECCAK_DIM ∧ (a.headD []).length = KECCAK_DIM) ∧
      (b.length = KECCAK_DIM ∧ (b.headD []).length = KECCAK_DIM)
  · rw [if_pos hc]
    obtain ⟨⟨ha1, ha2⟩, hb1, hb2⟩ := hc
    rcases a with _ | ⟨r0, arest⟩
    · simp [KECCAK_DIM] at ha1
    rcases r0 with _ | ⟨v, r0t⟩
    · simp [KECCAK_DIM] at ha2
    rcases b with _ | ⟨b0, brest⟩
    · simp [KECCAK_DIM] at hb1
    rcases b0 with _ | ⟨w, b0t⟩
    · simp [KECCAK_DIM] at hb2
    simp only [List.mapIdx_cons, List.getElem?_cons_zero, Option.some_bind,
      Gadgets.xor, XorGadget.xor64_diverges, Option.none_bind, List.mapM_cons,
      Option.bind_eq_bind, Option.pure_def, id_eq]
  · rw [if_neg hc]

/-- Helper: `absorb` with at least one block never yields a state: the first
block's `State.xor` already returns no value. -/
lemma absorb_first_block_hangs (fuel : Nat) (p : List Nat) (capacity rate : Nat)
    (rc : List Nat) (hcr : rate + capacity = KECCAK_STATE_LENGTH_WORDS)
    (hmod : p.length % rate = 0) (hne : blocksOf p rate ≠ []) :
    absorb fuel p capacity rate rc = none := by
  simp only [absorb]
  rw [if_pos hcr, if_pos hmod]
  cases hb : blocksOf p rate with
  | nil => exact absurd hb hne
  | cons blk blks =>
    simp only [List.foldlM_cons, state_xor_none_aux, Option.none_bind,
      Option.bind_eq_bind]

end Keccak

end O1js

/-- C2: the claim states that for every `length > 0`, `nibbleWidth > 0`,
`length ≤ 255`, the xor nibble chain terminates by reaching the
`padLength == 0` step.  In the code, `length = 16`, `nibbleWidth = 4`
produces `padLength = 4` (see `padLengthOf`), and from `padLength = 4` the
chain subtracts `4 * nibbleWidth = 16` each round, so it never reaches 0:
`xorRec` diverges (returns `none` for every fuel), whatever the operands. -/
theorem O1js.XorGadget.xorRec_nonterminating_at_padLength_four
    (fuel : Nat) (a b c : Nat) :
    O1js.XorGadget.xorRec fuel a b c 4 4 = none :=
  O1js.XorGadget.xorRec_stuck fuel 4 a b c (by omega) (by omega)

/-- C3: the claim states that `padLength` is the smallest multiple of
`4*nibbleWidth` that is `≥ length`, in particular when `length` is itself an
exact multiple.  At `length = 16`, `nibbleWidth = 4` (an exact multiple:
`16 % 16 = 0`) the code computes `padLength = 4`, which is smaller than
`length` and not even a multiple of `4*nibbleWidth = 16`; the smallest
multiple of 16 that is `≥ 16` is 16. -/
theorem O1js.XorGadget.padLength_wrong_on_exact_multiple :
    O1js.XorGadget.padLengthOf 16 4 = 4 ∧ 16 % (4 * 4) = 0 ∧
      O1js.XorGadget.padLengthOf 16 4 < 16 ∧ ¬ (4 * 4 ∣ O1js.XorGadget.padLengthOf 16 4) := by
  refine ⟨rfl, rfl, by norm_num [O1js.XorGadget.padLengthOf], ?_⟩
  rw [show O1js.XorGadget.padLengthOf 16 4 = 4 from rfl]
  omega

/-- C1: the claim states that for every `0 < length ≤ 255` and all
`a, b < 2^length`, `xor(a, b, length)` returns the exact bitwise XOR.  At
`length = 16` (with the default `nibbleWidth = 4`), `a = 1`, `b = 2` — all
preconditions hold — the call never returns: `padLength` is computed as 4
and the nibble chain recurses forever, so the model yields `none` for every
fuel instead of the expected `3`. -/
theorem O1js.XorGadget.xor_diverges_on_length_sixteen (fuel : Nat) :
    O1js.XorGadget.xor fuel 1 2 16 4 = none := by
  have h : ∀ c : Nat, O1js.XorGadget.xorRec fuel 1 2 c 4 4 = none := fun c =>
    O1js.XorGadget.xorRec_stuck fuel 4 1 2 c (by omega) (by omega)
  rw [O1js.XorGadget.xor]
  rw [if_pos (by norm_num), if_pos (by norm_num [O1js.sizeInBits]),
    if_pos (by norm_num)]
  simp only [show ((O1js.XorGadget.padLengthOf 16 4 : Nat) : Int) = (4 : Int) from rfl, h,
    Option.map_none']

namespace O1js

/-- C5: for every positive rate, the padded message length is an exact
multiple of the rate, and a rate-aligned message receives a full extra block
of `rate` padding bytes. -/
theorem Keccak.pad_length_spec (m : List Nat) (rate : Nat) (nist : Bool) (h : 0 < rate) :
    (Keccak.pad m rate nist).length % rate = 0 ∧
      (m.length % rate = 0 → (Keccak.pad m rate nist).length = m.length + rate) := by
  have hlen : (Keccak.pad m rate nist).length = m.length + (rate - m.length % rate) := by
    simp [Keccak.pad, Keccak.bytesToPad]
  have hmod : m.length % rate < rate := Nat.mod_lt _ h
  have hdm := Nat.div_add_mod m.length rate
  constructor
  · rw [hlen]
    have key : m.length + (rate - m.length % rate) = rate * (m.length / rate) + rate := by
      omega
    rw [key, ← Nat.mul_succ]
    exact Nat.mul_mod_right rate _
  · intro h0
    rw [hlen, h0]
    omega

/-- C5 witness: the padding law evaluated at the empty message with rate 1. -/
theorem Keccak.pad_length_spec_witness :
    0 < 1 ∧ ((Keccak.pad [] 1 true).length % 1 = 0 ∧
      (List.length ([] : List Nat) % 1 = 0 → (Keccak.pad [] 1 true).length = List.length ([] : List Nat) + 1)) :=
  ⟨by decide, Keccak.pad_length_spec [] 1 true (by decide)⟩

/-- C9: when exactly one padding byte is needed (`message.length % rate =
rate - 1`), `pad` appends the single byte `0x86` (NIST) or `0x81`
(pre-NIST): the first-byte marker and the final `0x80` bit are combined
additively in the same byte. -/
theorem Keccak.pad_single_byte (m : List Nat) (rate : Nat) (nist : Bool) (h : 0 < rate)
    (hm : m.length % rate = rate - 1) :
    Keccak.pad m rate nist = m ++ [if nist then 0x86 else 0x81] := by
  have he : Keccak.bytesToPad rate m.length = 1 := by
    unfold Keccak.bytesToPad
    rw [hm]
    omega
  have h86 : (0x86 : Nat) % P = 0x86 := Nat.mod_eq_of_lt (by norm_num [P])
  have h81 : (0x81 : Nat) % P = 0x81 := Nat.mod_eq_of_lt (by norm_num [P])
  cases nist <;> simp [Keccak.pad, he, Field.add, h86, h81]

/-- C9 witness: the single-byte padding evaluated at the empty message with
rate 1 (NIST flavour). -/
theorem Keccak.pad_single_byte_witness :
    (0 < 1 ∧ List.length ([] : List Nat) % 1 = 1 - 1) ∧
      Keccak.pad [] 1 true = [] ++ [if true then 0x86 else 0x81] :=
  ⟨⟨by decide, by decide⟩, Keccak.pad_single_byte [] 1 true (by decide) (by decide)⟩

/-- C6: with a positive rate, `squeeze` is the single-squeeze case exactly
when the requested length fits within one rate (`floor(length/rate) + 1 = 1`
iff `length < rate`); it then returns the first `length` words of the state,
and it throws whenever the output would require more than one squeeze. -/
theorem Keccak.squeeze_spec (state : Keccak.KState) (length rate : Nat) (h : 0 < rate) :
    (length / rate + 1 = 1 ↔ length < rate) ∧
      (length < rate →
        Keccak.squeeze state length rate =
          some ((Keccak.State.toWords state).take length)) ∧
      (rate ≤ length → Keccak.squeeze state length rate = none) := by
  have h1 : length / rate + 1 = 1 ↔ length < rate := by
    constructor
    · intro he
      by_contra hge
      have : 1 ≤ length / rate := (Nat.le_div_iff_mul_le h).mpr (by omega)
      omega
    · intro hlt
      rw [Nat.div_eq_of_lt hlt]
  refine ⟨h1, ?_, ?_⟩
  · intro hlt
    simp only [Keccak.squeeze]
    rw [if_pos (h1.mpr hlt)]
  · intro hge
    simp only [Keccak.squeeze]
    rw [if_neg]
    intro hc
    have := h1.mp hc
    omega

/-- C6 witness: squeezing one word out of a rate-1 zero state requires two
squeezes, so the call throws. -/
theorem Keccak.squeeze_spec_witness :
    0 < 1 ∧ ((1 / 1 + 1 = 1 ↔ 1 < 1) ∧
      (1 < 1 →
        Keccak.squeeze Keccak.State.zeros 1 1 =
          some ((Keccak.State.toWords Keccak.State.zeros).take 1)) ∧
      (1 ≤ 1 → Keccak.squeeze Keccak.State.zeros 1 1 = none)) :=
  ⟨by decide, Keccak.squeeze_spec Keccak.State.zeros 1 1 (by decide)⟩

/-- C8 counterexample: an input whose second row has length 3 — so its
dimensions differ from 5x5 in that row — passes both dimension assertions of
`State.xor` (the source's condition, second conjunct, holds), and the call
then does not fail with an assertion: it hangs in the very first entrywise
64-bit `Gadgets.xor` (the padLength slip of C1-C3), returning no state for
any amount of fuel, and in particular never reaching an assertion failure. -/
theorem Keccak.state_xor_short_row_passes_checks_then_hangs :
    (([[0, 0, 0, 0, 0], [0, 0, 0], [0, 0, 0, 0, 0], [0, 0, 0, 0, 0], [0, 0, 0, 0, 0]] :
        Keccak.KState).getD 1 []).length = 3 ∧
      ((List.length ([[0, 0, 0, 0, 0], [0, 0, 0], [0, 0, 0, 0, 0], [0, 0, 0, 0, 0],
            [0, 0, 0, 0, 0]] : Keccak.KState) = 5 ∧
          (([[0, 0, 0, 0, 0], [0, 0, 0], [0, 0, 0, 0, 0], [0, 0, 0, 0, 0],
            [0, 0, 0, 0, 0]] : Keccak.KState).headD []).length = 5) ∧
        (List.length ([[0, 0, 0, 0, 0], [0, 0, 0, 0, 0], [0, 0, 0, 0, 0], [0, 0, 0, 0, 0],
            [0, 0, 0, 0, 0]] : Keccak.KState) = 5 ∧
          (([[0, 0, 0, 0, 0], [0, 0, 0, 0, 0], [0, 0, 0, 0, 0], [0, 0, 0, 0, 0],
            [0, 0, 0, 0, 0]] : Keccak.KState).headD []).length = 5)) ∧
      ∀ fuel, Keccak.State.xor fuel
          [[0, 0, 0, 0, 0], [0, 0, 0], [0, 0, 0, 0, 0], [0, 0, 0, 0, 0], [0, 0, 0, 0, 0]]
          [[0, 0, 0, 0, 0], [0, 0, 0, 0, 0], [0, 0, 0, 0, 0], [0, 0, 0, 0, 0], [0, 0, 0, 0, 0]] =
        none :=
  ⟨by decide, by decide, fun fuel => Keccak.state_xor_none_aux fuel _ _⟩

/-- C8 amended: `State.xor` never returns a state at all.  If the outer
length of either input or the length of either input's first row differs
from 5, the dimension assertion throws (the `if` guard of the definition);
rows after the first are not checked, and on every input passing the checks
the call hangs in the first entrywise 64-bit `Gadgets.xor` — which diverges
for all operands by the C1-C3 padLength slip — before any assertion can
fail. -/
theorem Keccak.state_xor_never_returns (fuel : Nat) (a b : Keccak.KState) :
    Keccak.State.xor fuel a b = none :=
  Keccak.state_xor_none_aux fuel a b

/-- C10: composing 25 words into a state and flattening back is the
identity; `fromWords` places `w[5*j + i]` at position `[i][j]`, which
`toWords` reads back in the same order. -/
theorem Keccak.toWords_fromWords_roundtrip (w : List Nat) (h : w.length = 25) :
    Keccak.State.toWords (Keccak.State.fromWords w) = w := by
  rcases w with _ | ⟨a0, w⟩
  case nil => simp at h
  rcases w with _ | ⟨a1, w⟩
  case nil => simp at h
  rcases w with _ | ⟨a2, w⟩
  case nil => simp at h
  rcases w with _ | ⟨a3, w⟩
  case nil => simp at h
  rcases w with _ | ⟨a4, w⟩
  case nil => simp at h
  rcases w with _ | ⟨a5, w⟩
  case nil => simp at h
  rcases w with _ | ⟨a6, w⟩
  case nil => simp at h
  rcases w with _ | ⟨a7, w⟩
  case nil => simp at h
  rcases w with _ | ⟨a8, w⟩
  case nil => simp at h
  rcases w with _ | ⟨a9, w⟩
  case nil => simp at h
  rcases w with _ | ⟨a10, w⟩
  case nil => simp at h
  rcases w with _ | ⟨a11, w⟩
  case nil => simp at h
  rcases w with _ | ⟨a12, w⟩
  case nil => simp at h
  rcases w with _ | ⟨a13, w⟩
  case nil => simp at h
  rcases w with _ | ⟨a14, w⟩
  case nil => simp at h
  rcases w with _ | ⟨a15, w⟩
  case nil => simp at h
  rcases w with _ | ⟨a16, w⟩
  case nil => simp at h
  rcases w with _ | ⟨a17, w⟩
  case nil => simp at h
  rcases w with _ | ⟨a18, w⟩
  case nil => simp at h
  rcases w with _ | ⟨a19, w⟩
  case nil => simp at h
  rcases w with _ | ⟨a20, w⟩
  case nil => simp at h
  rcases w with _ | ⟨a21, w⟩
  case nil => simp at h
  rcases w with _ | ⟨a22, w⟩
  case nil => simp at h
  rcases w with _ | ⟨a23, w⟩
  case nil => simp at h
  rcases w with _ | ⟨a24, w⟩
  case nil => simp at h
  rcases w with _ | ⟨a25, w⟩
  · rfl
  · simp only [List.length_cons] at h
    omega

/-- C10 witness: the roundtrip evaluated on the words 0..24. -/
theorem Keccak.toWords_fromWords_roundtrip_witness :
    (List.range 25).length = 25 ∧
      Keccak.State.toWords (Keccak.State.fromWords (List.range 25)) = List.range 25 :=
  ⟨by decide, Keccak.toWords_fromWords_roundtrip (List.range 25) (by decide)⟩

/-- C4: the claim states that `ethereum([])` returns the byte sequence of
the Keccak-256 empty-message digest.  The code never returns any digest: the
sponge's first absorbed block reaches `State.xor`, whose first entrywise
`Gadgets.xor(..., 64)` runs the section-4.1 gadget of
`src/unnamed/part_000`, and `64 % (4*4) = 0` leaves `padLength = 4`, so the
nibble chain recurses forever (C1-C3).  The model therefore yields `none`
for every amount of fuel, for the whole pipeline
`ethereum -> preNist -> hash -> sponge -> absorb`. -/
theorem Keccak.ethereum_empty_diverges (fuel : Nat) :
    Keccak.ethereum fuel [] = none := by
  have hbw : Keccak.bytesToWords (Keccak.pad []
      ((Keccak.KECCAK_STATE_LENGTH_WORDS - 256 / 4 / Keccak.BYTES_PER_WORD) *
        Keccak.BYTES_PER_WORD) false) = some [1, 0, 0, 0, 0, 0, 0, 0, 0, 0, 0, 0, 0, 0, 0, 0, 9223372036854775808] := by decide
  have habs : Keccak.absorb fuel [1, 0, 0, 0, 0, 0, 0, 0, 0, 0, 0, 0, 0, 0, 0, 0, 9223372036854775808]
      (256 / 4 / Keccak.BYTES_PER_WORD)
      (Keccak.KECCAK_STATE_LENGTH_WORDS - 256 / 4 / Keccak.BYTES_PER_WORD)
      Keccak.ROUND_CONSTANTS = none :=
    Keccak.absorb_first_block_hangs fuel _ _ _ _ (by decide) (by decide) (by decide)
  have hsp : Keccak.sponge fuel [1, 0, 0, 0, 0, 0, 0, 0, 0, 0, 0, 0, 0, 0, 0, 0, 9223372036854775808]
      (256 / 8 / Keccak.BYTES_PER_WORD) (256 / 4 / Keccak.BYTES_PER_WORD)
      (Keccak.KECCAK_STATE_LENGTH_WORDS - 256 / 4 / Keccak.BYTES_PER_WORD) = none := by
    simp only [Keccak.sponge]
    rw [if_pos (by decide), habs]
    simp only [Option.bind_eq_bind, Option.none_bind]
  simp only [Keccak.ethereum, Keccak.preNist, Keccak.hash]
  rw [if_pos (by decide), if_pos (by decide), if_pos (by decide), if_pos (by decide),
    if_pos (by decide)]
  rw [hbw]
  simp only [Option.bind_eq_bind, Option.some_bind, hsp, Option.none_bind]

end O1js

namespace O1js.Keccak

/-- Helper: a `bigint` byte extraction `x >> n & 0xff` is division and
remainder. -/
lemma extract_byte (x n : Nat) : x >>> n &&& 0xff = x / 2 ^ n % 256 := by
  rw [Nat.shiftRight_eq_div_pow, show (0xff : Nat) = 2 ^ 8 - 1 from rfl,
    Nat.and_pow_two_sub_one_eq_mod]

/-- Helper: extracting the byte at weight `2 ^ n` from a little-endian
decomposition. -/
lemma digit_extract (L d H n : Nat) (hL : L < 2 ^ n) (hd : d < 256) :
    (L + 2 ^ n * (d + 256 * H)) / 2 ^ n % 256 = d := by
  rw [Nat.add_mul_div_left _ _ (Nat.pos_pow_of_pos n (by omega)),
    Nat.div_eq_of_lt hL, Nat.zero_add, Nat.add_mul_mod_self_left,
    Nat.mod_eq_of_lt hd]

set_option maxHeartbeats 1000000 in
lemma wordToBytes_bytesToWord (b0 b1 b2 b3 b4 b5 b6 b7 : Nat)
    (h0 : b0 < 256) (h1 : b1 < 256) (h2 : b2 < 256) (h3 : b3 < 256)
    (h4 : b4 < 256) (h5 : b5 < 256) (h6 : b6 < 256) (h7 : b7 < 256) :
    wordToBytes (bytesToWord [b0, b1, b2, b3, b4, b5, b6, b7]) =
      some [b0, b1, b2, b3, b4, b5, b6, b7] := by
  have hW : bytesToWord [b0, b1, b2, b3, b4, b5, b6, b7] = b0 + b1 * 2 ^ 8 + b2 * 2 ^ 16 + b3 * 2 ^ 24 + b4 * 2 ^ 32 + b5 * 2 ^ 40 + b6 * 2 ^ 48 + b7 * 2 ^ 56 := by
    simp only [bytesToWord, List.mapIdx_cons, List.mapIdx_nil, List.foldl_cons, List.foldl_nil,
      Field.add, Field.mul, Nat.shiftLeft_eq, P]
    norm_num
    omega
  rw [hW]
  have hrange : List.range BYTES_PER_WORD = [0, 1, 2, 3, 4, 5, 6, 7] := rfl
  have e0 : (b0 + b1 * 2 ^ 8 + b2 * 2 ^ 16 + b3 * 2 ^ 24 + b4 * 2 ^ 32 + b5 * 2 ^ 40 + b6 * 2 ^ 48 + b7 * 2 ^ 56) / 2 ^ (8 * 0) % 256 = b0 := by
    rw [show (b0 + b1 * 2 ^ 8 + b2 * 2 ^ 16 + b3 * 2 ^ 24 + b4 * 2 ^ 32 + b5 * 2 ^ 40 + b6 * 2 ^ 48 + b7 * 2 ^ 56) = (0) + 2 ^ (8 * 0) * (b0 + 256 * (b1 * 2 ^ 0 + b2 * 2 ^ 8 + b3 * 2 ^ 16 + b4 * 2 ^ 24 + b5 * 2 ^ 32 + b6 * 2 ^ 40 + b7 * 2 ^ 48)) from by ring]
    exact digit_extract _ _ _ _ (by omega) h0
  have e1 : (b0 + b1 * 2 ^ 8 + b2 * 2 ^ 16 + b3 * 2 ^ 24 + b4 * 2 ^ 32 + b5 * 2 ^ 40 + b6 * 2 ^ 48 + b7 * 2 ^ 56) / 2 ^ (8 * 1) % 256 = b1 := by
    rw [show (b0 + b1 * 2 ^ 8 + b2 * 2 ^ 16 + b3 * 2 ^ 24 + b4 * 2 ^ 32 + b5 * 2 ^ 40 + b6 * 2 ^ 48 + b7 * 2 ^ 56) = (b0 * 2 ^ 0) + 2 ^ (8 * 1) * (b1 + 256 * (b2 * 2 ^ 0 + b3 * 2 ^ 8 + b4 * 2 ^ 16 + b5 * 2 ^ 24 + b6 * 2 ^ 32 + b7 * 2 ^ 40)) from by ring]
    exact digit_extract _ _ _ _ (by omega) h1
  have e2 : (b0 + b1 * 2 ^ 8 + b2 * 2 ^ 16 + b3 * 2 ^ 24 + b4 * 2 ^ 32 + b5 * 2 ^ 40 + b6 * 2 ^ 48 + b7 * 2 ^ 56) / 2 ^ (8 * 2) % 256 = b2 := by
    rw [show (b0 + b1 * 2 ^ 8 + b2 * 2 ^ 16 + b3 * 2 ^ 24 + b4 * 2 ^ 32 + b5 * 2 ^ 40 + b6 * 2 ^ 48 + b7 * 2 ^ 56) = (b0 * 2 ^ 0 + b1 * 2 ^ 8) + 2 ^ (8 * 2) * (b2 + 256 * (b3 * 2 ^ 0 + b4 * 2 ^ 8 + b5 * 2 ^ 16 + b6 * 2 ^ 24 + b7 * 2 ^ 32)) from by ring]
    exact digit_extract _ _ _ _ (by omega) h2
  have e3 : (b0 + b1 * 2 ^ 8 + b2 * 2 ^ 16 + b3 * 2 ^ 24 + b4 * 2 ^ 32 + b5 * 2 ^ 40 + b6 * 2 ^ 48 + b7 * 2 ^ 56) / 2 ^ (8 * 3) % 256 = b3 := by
    rw [show (b0 + b1 * 2 ^ 8 + b2 * 2 ^ 16 + b3 * 2 ^ 24 + b4 * 2 ^ 32 + b5 * 2 ^ 40 + b6 * 2 ^ 48 + b7 * 2 ^ 56) = (b0 * 2 ^ 0 + b1 * 2 ^ 8 + b2 * 2 ^ 16) + 2 ^ (8 * 3) * (b3 + 256 * (b4 * 2 ^ 0 + b5 * 2 ^ 8 + b6 * 2 ^ 16 + b7 * 2 ^ 24)) from by ring]
    exact digit_extract _ _ _ _ (by omega) h3
  have e4 : (b0 + b1 * 2 ^ 8 + b2 * 2 ^ 16 + b3 * 2 ^ 24 + b4 * 2 ^ 32 + b5 * 2 ^ 40 + b6 * 2 ^ 48 + b7 * 2 ^ 56) / 2 ^ (8 * 4) % 256 = b4 := by
    rw [show (b0 + b1 * 2 ^ 8 + b2 * 2 ^ 16 + b3 * 2 ^ 24 + b4 * 2 ^ 32 + b5 * 2 ^ 40 + b6 * 2 ^ 48 + b7 * 2 ^ 56) = (b0 * 2 ^ 0 + b1 * 2 ^ 8 + b2 * 2 ^ 16 + b3 * 2 ^ 24) + 2 ^ (8 * 4) * (b4 + 256 * (b5 * 2 ^ 0 + b6 * 2 ^ 8 + b7 * 2 ^ 16)) from by ring]
    exact digit_extract _ _ _ _ (by omega) h4
  have e5 : (b0 + b1 * 2 ^ 8 + b2 * 2 ^ 16 + b3 * 2 ^ 24 + b4 * 2 ^ 32 + b5 * 2 ^ 40 + b6 * 2 ^ 48 + b7 * 2 ^ 56) / 2 ^ (8 * 5) % 256 = b5 := by
    rw [show (b0 + b1 * 2 ^ 8 + b2 * 2 ^ 16 + b3 * 2 ^ 24 + b4 * 2 ^ 32 + b5 * 2 ^ 40 + b6 * 2 ^ 48 + b7 * 2 ^ 56) = (b0 * 2 ^ 0 + b1 * 2 ^ 8 + b2 * 2 ^ 16 + b3 * 2 ^ 24 + b4 * 2 ^ 32) + 2 ^ (8 * 5) * (b5 + 256 * (b6 * 2 ^ 0 + b7 * 2 ^ 8)) from by ring]
    exact digit_extract _ _ _ _ (by omega) h5
  have e6 : (b0 + b1 * 2 ^ 8 + b2 * 2 ^ 16 + b3 * 2 ^ 24 + b4 * 2 ^ 32 + b5 * 2 ^ 40 + b6 * 2 ^ 48 + b7 * 2 ^ 56) / 2 ^ (8 * 6) % 256 = b6 := by
    rw [show (b0 + b1 * 2 ^ 8 + b2 * 2 ^ 16 + b3 * 2 ^ 24 + b4 * 2 ^ 32 + b5 * 2 ^ 40 + b6 * 2 ^ 48 + b7 * 2 ^ 56) = (b0 * 2 ^ 0 + b1 * 2 ^ 8 + b2 * 2 ^ 16 + b3 * 2 ^ 24 + b4 * 2 ^ 32 + b5 * 2 ^ 40) + 2 ^ (8 * 6) * (b6 + 256 * (b7 * 2 ^ 0)) from by ring]
    exact digit_extract _ _ _ _ (by omega) h6
  have e7 : (b0 + b1 * 2 ^ 8 + b2 * 2 ^ 16 + b3 * 2 ^ 24 + b4 * 2 ^ 32 + b5 * 2 ^ 40 + b6 * 2 ^ 48 + b7 * 2 ^ 56) / 2 ^ (8 * 7) % 256 = b7 := by
    rw [show (b0 + b1 * 2 ^ 8 + b2 * 2 ^ 16 + b3 * 2 ^ 24 + b4 * 2 ^ 32 + b5 * 2 ^ 40 + b6 * 2 ^ 48 + b7 * 2 ^ 56) = (b0 * 2 ^ 0 + b1 * 2 ^ 8 + b2 * 2 ^ 16 + b3 * 2 ^ 24 + b4 * 2 ^ 32 + b5 * 2 ^ 40 + b6 * 2 ^ 48) + 2 ^ (8 * 7) * (b7 + 256 * (0)) from by ring]
    exact digit_extract _ _ _ _ (by omega) h7
  have hall : ([b0, b1, b2, b3, b4, b5, b6, b7].all fun b => decide (b < 2 ^ 8)) = true := by
    simp [h0, h1, h2, h3, h4, h5, h6, h7]
  simp only [wordToBytes, hrange, List.map_cons, List.map_nil, extract_byte,
    e0, e1, e2, e3, e4, e5, e6, e7]
  rw [if_pos hall, if_pos hW]

lemma wordsToBytes_cons (w : Nat) (ws : List Nat) :
    wordsToBytes (w :: ws) =
      (wordToBytes w).bind fun bs => (wordsToBytes ws).map fun rest => bs ++ rest := by
  simp only [wordsToBytes, List.mapM_cons, Option.bind_eq_bind, Option.pure_def]
  cases h1 : wordToBytes w
  · simp only [Option.none_bind, Option.map_none']
  · simp only [Option.some_bind]
    cases h2 : List.mapM wordToBytes ws
    · simp only [Option.none_bind, Option.map_none']
    · simp only [Option.some_bind, Option.map_some', List.flatten_cons]

lemma bytesToWords_cons8 (b0 b1 b2 b3 b4 b5 b6 b7 : Nat) (rest : List Nat)
    (h : rest.length % 8 = 0) :
    bytesToWords (b0 :: b1 :: b2 :: b3 :: b4 :: b5 :: b6 :: b7 :: rest) =
      (bytesToWords rest).map fun ws => bytesToWord [b0, b1, b2, b3, b4, b5, b6, b7] :: ws := by
  have hBPW : BYTES_PER_WORD = 8 := rfl
  have hlen : (b0 :: b1 :: b2 :: b3 :: b4 :: b5 :: b6 :: b7 :: rest : List Nat).length % 8 = 0 := by
    simp only [List.length_cons]; omega
  have hdiv : (b0 :: b1 :: b2 :: b3 :: b4 :: b5 :: b6 :: b7 :: rest : List Nat).length / 8 = rest.length / 8 + 1 := by
    simp only [List.length_cons]; omega
  have hbody : (List.range ((b0 :: b1 :: b2 :: b3 :: b4 :: b5 :: b6 :: b7 :: rest : List Nat).length / 8)).map
      (fun i => (((b0 :: b1 :: b2 :: b3 :: b4 :: b5 :: b6 :: b7 :: rest : List Nat).drop (8 * i)).take 8))
      = [b0, b1, b2, b3, b4, b5, b6, b7] :: (List.range (rest.length / 8)).map (fun i => ((rest.drop (8 * i)).take 8)) := by
    rw [hdiv, List.range_succ_eq_map, List.map_cons, List.map_map]
    refine congrArg₂ _ rfl ?_
    refine List.map_congr_left fun i _ => ?_
    show (((b0 :: b1 :: b2 :: b3 :: b4 :: b5 :: b6 :: b7 :: rest : List Nat).drop (8 * (i + 1))).take 8) = (rest.drop (8 * i)).take 8
    rw [show 8 * (i + 1) = 8 + 8 * i from by ring, ← List.drop_drop]
    rfl
  simp only [bytesToWords, chunk, hBPW]
  rw [if_pos hlen, if_pos h, hbody]
  simp

lemma codec_roundtrip_aux : ∀ (n : Nat) (bytes : List Nat), bytes.length = 8 * n →
    (∀ b ∈ bytes, b < 256) → (bytesToWords bytes).bind wordsToBytes = some bytes := by
  intro n
  induction n with
  | zero =>
    intro bytes h _
    have hnil : bytes = [] := List.length_eq_zero.mp (by omega)
    subst hnil
    rfl
  | succ n ih =>
    intro bytes h hb
    rcases bytes with _ | ⟨b0, bytes⟩
    case nil => simp only [List.length_cons, List.length_nil] at h; omega
    rcases bytes with _ | ⟨b1, bytes⟩
    case nil => simp only [List.length_cons, List.length_nil] at h; omega
    rcases bytes with _ | ⟨b2, bytes⟩
    case nil => simp only [List.length_cons, List.length_nil] at h; omega
    rcases bytes with _ | ⟨b3, bytes⟩
    case nil => simp only [List.length_cons, List.length_nil] at h; omega
    rcases bytes with _ | ⟨b4, bytes⟩
    case nil => simp only [List.length_cons, List.length_nil] at h; omega
    rcases bytes with _ | ⟨b5, bytes⟩
    case nil => simp only [List.length_cons, List.length_nil] at h; omega
    rcases bytes with _ | ⟨b6, bytes⟩
    case nil => simp only [List.length_cons, List.length_nil] at h; omega
    rcases bytes with _ | ⟨b7, bytes⟩
    case nil => simp only [List.length_cons, List.length_nil] at h; omega
    simp only [List.length_cons] at h
    have hrest8 : bytes.length % 8 = 0 := by omega
    rw [bytesToWords_cons8 _ _ _ _ _ _ _ _ _ hrest8]
    have ihr := ih bytes (by omega) (fun b hbm => hb b (by simp [hbm]))
    cases hbw : bytesToWords bytes with
    | none => rw [hbw] at ihr; simp at ihr
    | some ws =>
      rw [hbw] at ihr
      simp only [Option.some_bind] at ihr
      simp only [Option.map_some', Option.some_bind]
      rw [wordsToBytes_cons,
        wordToBytes_bytesToWord b0 b1 b2 b3 b4 b5 b6 b7
          (hb b0 (by simp)) (hb b1 (by simp)) (hb b2 (by simp)) (hb b3 (by simp))
          (hb b4 (by simp)) (hb b5 (by simp)) (hb b6 (by simp)) (hb b7 (by simp))]
      simp [ihr]


end O1js.Keccak

/-- C7: for every byte array whose length is a multiple of 8 and whose
entries are below 256, decomposing the words produced by `bytesToWords` back
to bytes with `wordsToBytes` recovers the original array (and none of the
decomposition assertions fire). -/
theorem O1js.Keccak.codec_roundtrip (bytes : List Nat) (hlen : bytes.length % 8 = 0)
    (hb : ∀ b ∈ bytes, b < 256) :
    (O1js.Keccak.bytesToWords bytes).bind O1js.Keccak.wordsToBytes = some bytes :=
  O1js.Keccak.codec_roundtrip_aux (bytes.length / 8) bytes (by omega) hb

/-- C7 witness: the roundtrip evaluated on the bytes 0..7. -/
theorem O1js.Keccak.codec_roundtrip_witness :
    ((List.range 8).length % 8 = 0 ∧ ∀ b ∈ List.range 8, b < 256) ∧
      (O1js.Keccak.bytesToWords (List.range 8)).bind O1js.Keccak.wordsToBytes =
        some (List.range 8) :=
  ⟨⟨by decide, by decide⟩,
    O1js.Keccak.codec_roundtrip (List.range 8) (by decide) (by decide)⟩
